import Mathlib

/-!
Verification of the D&D dungeon-master character/rules code.

Definitions are shallow embeddings of the repository's frontend logic
(DetailedCharacterCreator.tsx, LevelUpWizard.tsx, CharacterEditor.tsx,
QuickSpellPanel / SpellManager / dice panels).  Where the backend rules
engine itself is not part of the sources (only its HTTP callers are), the
corresponding definition is modelled from the specification and marked as
such in its doc comment.
-/

namespace DndEngine

/-- The six ability scores of a character. -/
inductive Ability
  | strength | dexterity | constitution | intelligence | wisdom | charisma
deriving DecidableEq, Repr

/-- The six abilities, in the order the frontend iterates over them. -/
def Ability.all : List Ability :=
  [.strength, .dexterity, .constitution, .intelligence, .wisdom, .charisma]

/-- From DetailedCharacterCreator.tsx `calculatePointBuyCost`:
cost of a single base ability score under point buy. -/
def calculatePointBuyCost (score : ℤ) : ℤ :=
  if score ≤ 8 then 0
  else if score ≤ 13 then score - 8
  else if score = 14 then 7
  else if score = 15 then 9
  else 0

/-- From DetailedCharacterCreator.tsx `calculateTotalPointsUsed`:
total point-buy cost of the six base scores. -/
def calculateTotalPointsUsed (scores : Ability → ℤ) : ℤ :=
  (Ability.all.map (fun a => calculatePointBuyCost (scores a))).sum

/-- From DetailedCharacterCreator.tsx `getPointsRemaining`. -/
def getPointsRemaining (scores : Ability → ℤ) : ℤ :=
  27 - calculateTotalPointsUsed scores

/-- From DetailedCharacterCreator.tsx `resetToPointBuyDefaults`:
all six base scores are set to 8 (and the pool to 27). -/
def pointBuyDefaults : Ability → ℤ := fun _ => 8

/-- Functional update of one ability score (the spread-update in the source). -/
def setScore (scores : Ability → ℤ) (a : Ability) (v : ℤ) : Ability → ℤ :=
  fun b => if b = a then v else scores b

/-- From DetailedCharacterCreator.tsx `adjustPointBuyScore`:
change one base score, refusing moves that leave [8,15] or overspend the pool. -/
def adjustPointBuyScore (scores : Ability → ℤ) (a : Ability) (change : ℤ) :
    Ability → ℤ :=
  let currentScore := scores a
  let newScore := currentScore + change
  if newScore < 8 ∨ 15 < newScore then scores
  else
    let currentCost := calculatePointBuyCost currentScore
    let newCost := calculatePointBuyCost newScore
    let costDifference := newCost - currentCost
    if getPointsRemaining scores - costDifference < 0 then scores
    else setScore scores a newScore

/-- Run a sequence of `adjustPointBuyScore` calls. -/
def runPointBuy (ops : List (Ability × ℤ)) : Ability → ℤ :=
  ops.foldl (fun s p => adjustPointBuyScore s p.1 p.2) pointBuyDefaults

/-- From LevelUpWizard.tsx: `Math.floor((con - 10) / 2)`, the CON modifier
(floor division, as JavaScript `Math.floor`). -/
def conModifier (con : ℤ) : ℤ := Int.fdiv (con - 10) 2

/-- From LevelUpWizard.tsx `rollHpGain`: the HP gain produced from a hit-die
roll and the CON modifier, `Math.max(1, roll + conModifier)`. -/
def rollHpGain (roll cm : ℤ) : ℤ := max 1 (roll + cm)

/-- From LevelUpWizard.tsx `renderHpStep` manual entry:
`parseInt(e.target.value) || 1` — the parsed value is used unclamped and
only a parse result of 0 (or NaN, modelled as 0) falls back to 1. -/
def manualHpGainInput (v : ℤ) : ℤ := if v = 0 then 1 else v

/-- The ASI-step radio selection in LevelUpWizard.tsx
(`asi_choice_type`: `''`, `'abilities'` or `'feat'`). -/
inductive AsiChoice
  | unset | abilities | feat
deriving DecidableEq, Repr

/-- The ASI-relevant part of LevelUpWizard.tsx `selections` state. -/
structure ASISelections where
  improvements : Ability → ℕ
  selected_feat : String
  asi_choice_type : AsiChoice

/-- Total ASI points spent (`Object.values(...).reduce((sum, val) => sum + (val || 0), 0)`). -/
def totalAsiPoints (imp : Ability → ℕ) : ℕ :=
  (Ability.all.map imp).sum

/-- The UI events of the ASI step in LevelUpWizard.tsx `renderASIStep`. -/
inductive ASIEvent
  | incAbility (a : Ability)
  | decAbility (a : Ability)
  | radioAbilities
  | radioFeat
  | dropdownFeat (s : String)

/-- One ASI-step UI event of LevelUpWizard.tsx, including each control's
`disabled` condition and `onClick`/`onChange` guard:
the `+` button requires `totalUsed < 2 && ability + increase < 20` and is
disabled when the feat radio is selected; the `-` button requires a positive
increase and no feat radio; the `abilities` radio clears the feat; the `feat`
radio clears the improvements; the feat dropdown (`disabled={false}`) sets
the feat and the choice type but clears nothing. -/
def asiStep (base : Ability → ℤ) (sel : ASISelections) (e : ASIEvent) :
    ASISelections :=
  match e with
  | .incAbility a =>
      let totalUsed := totalAsiPoints sel.improvements
      let currentIncrease := sel.improvements a
      if totalUsed < 2 ∧ base a + (currentIncrease : ℤ) < 20 ∧
          sel.asi_choice_type ≠ .feat then
        { sel with improvements :=
            fun b => if b = a then currentIncrease + 1 else sel.improvements b }
      else sel
  | .decAbility a =>
      let current := sel.improvements a
      if 0 < current ∧ sel.asi_choice_type ≠ .feat then
        { sel with improvements :=
            fun b => if b = a then current - 1 else sel.improvements b }
      else sel
  | .radioAbilities =>
      { sel with selected_feat := "", asi_choice_type := .abilities }
  | .radioFeat =>
      { sel with improvements := fun _ => 0, asi_choice_type := .feat }
  | .dropdownFeat s =>
      { sel with selected_feat := s,
                 asi_choice_type := if s = "" then .unset else .feat }

/-- Initial `selections` state of LevelUpWizard.tsx. -/
def initialSelections : ASISelections :=
  { improvements := fun _ => 0, selected_feat := "", asi_choice_type := .unset }

/-- Run a sequence of ASI-step UI events from the wizard's initial state. -/
def runAsi (base : Ability → ℤ) (events : List ASIEvent) : ASISelections :=
  events.foldl (asiStep base) initialSelections

/-- Event sequence: select the abilities radio, spend both ASI points, then
pick a feat from the (never disabled) dropdown. -/
def c4BadEvents : List ASIEvent :=
  [.radioAbilities, .incAbility .strength, .incAbility .dexterity,
   .dropdownFeat "Alert"]

/-- Character HP state as the engine sees it. -/
structure CharState where
  current_hp : ℤ
  max_hp : ℤ
  unconscious : Bool
  dead : Bool
deriving DecidableEq, Repr

/-- Modelled from the spec: the backend `modify_hp` action (§4.4) is not in
the sources (CharacterEditor.tsx only posts to the `/heal` endpoint).
Negative amounts are damage, clamped so `current_hp` cannot go below 0;
positive amounts are healing, clamped to `max_hp`.  Reaching 0 sets the
`unconscious` condition and leaving 0 clears it; damage of at least `max_hp`
while already at 0 sets the terminal `dead` condition (per §3's invariant,
`unconscious` holds iff `current_hp = 0` and the character is not dead, so
death clears `unconscious`); `dead` is terminal and no later `modify_hp`
reverses it. -/
def modify_hp (s : CharState) (amount : ℤ) : CharState :=
  if s.dead then s
  else if amount < 0 then
    if s.current_hp = 0 ∧ s.max_hp ≤ -amount then
      { s with unconscious := false, dead := true }
    else
      let newHp := max 0 (s.current_hp + amount)
      { s with current_hp := newHp, unconscious := decide (newHp = 0) }
  else
    let newHp := min s.max_hp (s.current_hp + amount)
    { s with current_hp := newHp, unconscious := decide (newHp = 0) }

/-- The §3 character-state invariant: HP within bounds and the
unconsciousness condition present iff HP is 0 and the character is not dead. -/
abbrev ValidChar (s : CharState) : Prop :=
  0 ≤ s.current_hp ∧ s.current_hp ≤ s.max_hp ∧
    (s.unconscious = true ↔ (s.current_hp = 0 ∧ s.dead = false))

/-- A character used to instantiate the HP theorems. -/
def exampleChar : CharState :=
  { current_hp := 20, max_hp := 20, unconscious := false, dead := false }

/-- Spell-cast failures (§4.4). -/
inductive CastError
  | insufficientSlots
  | spellNotPrepared
deriving DecidableEq, Repr

/-- The spellcasting-relevant character state: remaining slots indexed by
spell level (index 0 is level 1) and the times-cast-today counter. -/
structure SpellcastState where
  spell_slots : List ℤ
  times_cast_today : ℕ
deriving DecidableEq, Repr

/-- Modelled from the spec: the backend `cast_spell` action (§4.4) is not in
the sources (QuickSpellPanel / SpellManager only post to `/spells/cast`).
Cantrips (`spell_level = 0`) never consume a slot; otherwise the cast fails
with `InsufficientSlots` when no slot remains at `slot_level`, fails with
`SpellNotPrepared` when the spell is not castable (not a cantrip, not known
by a no-preparation caster, not prepared), and on success decrements the
chosen slot by one and increments the times-cast-today counter. -/
def cast_spell (st : SpellcastState) (spell_level slot_level : ℕ)
    (castable : Bool) : Except CastError SpellcastState :=
  if spell_level = 0 then
    .ok { st with times_cast_today := st.times_cast_today + 1 }
  else if st.spell_slots.getD (slot_level - 1) 0 ≤ 0 then
    .error .insufficientSlots
  else if castable = false then
    .error .spellNotPrepared
  else
    .ok { spell_slots :=
            st.spell_slots.set (slot_level - 1)
              (st.spell_slots.getD (slot_level - 1) 0 - 1),
          times_cast_today := st.times_cast_today + 1 }

/-- A spellcasting state used to instantiate the cast theorems:
two level-1 slots remaining. -/
def exampleSpellState : SpellcastState :=
  { spell_slots := [2, 0, 0, 0, 0, 0, 0, 0, 0], times_cast_today := 0 }

/-- The spellcasting state after one successful level-1 cast. -/
def exampleSpellStateAfter : SpellcastState :=
  { spell_slots := [1, 0, 0, 0, 0, 0, 0, 0, 0], times_cast_today := 1 }

/-- Errors of the character-state store `apply` (§4.3). -/
inductive ApplyError
  | invariantViolation
deriving DecidableEq, Repr

/-- The character-state store (§4.3): the authoritative entity state plus the
record of already-applied `(entity_id, idempotency_key)` requests with their
results, within the retention window. -/
structure Store where
  state : ℤ
  applied : List ((ℕ × ℕ) × ℤ)
deriving DecidableEq, Repr

/-- Look up the recorded result of an `(entity_id, idempotency_key)` pair. -/
def Store.lookupKey (st : Store) (entity_id key : ℕ) : Option ℤ :=
  (st.applied.find? (fun p => p.1 == (entity_id, key))).map (fun p => p.2)

/-- Modelled from the spec: the store's `apply` contract (§4.3) is backend
code absent from the sources.  If the `(entity_id, idempotency_key)` pair was
already applied, the prior result is returned and nothing is recomputed;
otherwise the mutation runs against the current snapshot, the result is
persisted only when it satisfies the invariants (else `InvariantViolation`
and the change is discarded), and the key is recorded with its result. -/
def Store.apply (st : Store) (entity_id key : ℕ) (mutation : ℤ → ℤ)
    (valid : ℤ → Bool) : Except ApplyError (Store × ℤ) :=
  match st.lookupKey entity_id key with
  | some r => .ok (st, r)
  | none =>
    let s' := mutation st.state
    if valid s' then
      .ok ({ state := s', applied := ((entity_id, key), s') :: st.applied }, s')
    else .error .invariantViolation

/-- A store used to instantiate the idempotency theorem. -/
def exampleStore : Store := { state := 20, applied := [] }

/-- The example store after one `modify_hp(-10)`-style mutation under key
`(1, 42)`. -/
def exampleStoreAfter : Store := { state := 10, applied := [((1, 42), 10)] }

/-- Dice-roll mode (§4.1). -/
inductive RollMode
  | normal | advantage | disadvantage
deriving DecidableEq, Repr

/-- Dice-roll failure (§4.1). -/
inductive RollError
  | invalidParameterError
deriving DecidableEq, Repr

/-- A dice-roll result: kept raw values, dropped dice, modifier, total. -/
structure DiceResult where
  rolls : List ℤ
  dropped : List ℤ
  modifier : ℤ
  total : ℤ
deriving DecidableEq, Repr

/-- Modelled from the spec: the dice resolver `roll` (§4.1) is backend code
absent from the sources (the chat panel only posts to `/api/dice/roll`).
`rng n` is the n-th value drawn from the randomness source.  For
`sides = 20` and a non-normal mode, two independent d20s are drawn, the max
(advantage) or min (disadvantage) is kept and the other die reported in
`dropped`; in every other configuration the mode is ignored and `count`
independent dice are summed.  Total = kept dice + modifier.  `sides < 2` or
`count < 1` is an invalid parameter. -/
def roll (count sides modifier : ℤ) (mode : RollMode) (rng : ℕ → ℤ) :
    Except RollError DiceResult :=
  if sides < 2 ∨ count < 1 then .error .invalidParameterError
  else if sides = 20 ∧ mode ≠ .normal then
    let d₁ := rng 0
    let d₂ := rng 1
    let kept := if mode = .advantage then max d₁ d₂ else min d₁ d₂
    let dropd := if mode = .advantage then min d₁ d₂ else max d₁ d₂
    .ok { rolls := [kept], dropped := [dropd], modifier := modifier,
          total := kept + modifier }
  else
    let dice := (List.range count.toNat).map rng
    .ok { rolls := dice, dropped := [], modifier := modifier,
          total := dice.sum + modifier }

/-- From the chat panel's `rollBasicDice`: the advantage mode sent to the
server is the selected mode only for d20s (`sides === 20 ? diceAdvantage :
'normal'`). -/
def rollBasicDiceAdvantage (sides : ℤ) (diceAdvantage : RollMode) : RollMode :=
  if sides = 20 then diceAdvantage else .normal

/-- A randomness source used to instantiate the dice theorem. -/
def exampleRng : ℕ → ℤ := fun n => if n = 0 then 15 else 7

/-- Descending insertion: one step of `rolls.sort((a, b) => b - a)`. -/
def insertDesc (x : ℕ) : List ℕ → List ℕ
  | [] => [x]
  | y :: ys => if y ≤ x then x :: y :: ys else y :: insertDesc x ys

/-- Descending sort, as `rolls.sort((a, b) => b - a)` in
DetailedCharacterCreator.tsx. -/
def sortDesc : List ℕ → List ℕ
  | [] => []
  | x :: xs => insertDesc x (sortDesc xs)

/-- From DetailedCharacterCreator.tsx `rollAbilityScores`: six groups, each
four d6 values (`dice i j` = the j-th die of group i) sorted descending. -/
def rollAbilityScores (dice : ℕ → ℕ → ℕ) : List (List ℕ) :=
  (List.range 6).map (fun i => sortDesc ((List.range 4).map (dice i)))

/-- From DetailedCharacterCreator.tsx `rollAbilityScores`:
`totals = newRolls.map(roll => roll[0] + roll[1] + roll[2])`. -/
def abilityTotals (dice : ℕ → ℕ → ℕ) : List ℕ :=
  (rollAbilityScores dice).map (fun r => r.getD 0 0 + r.getD 1 0 + r.getD 2 0)

/-- The claim's wording: the sum of the three highest of four die values,
i.e. the sum of all four minus the smallest. -/
def specThreeHighestSum (a b c d : ℕ) : ℕ :=
  a + b + c + d - min a (min b (min c d))

/-- Updating one score changes the total point-buy cost by the cost
difference at that ability. -/
theorem totalPointsUsed_setScore (scores : Ability → ℤ) (a : Ability) (v : ℤ) :
    calculateTotalPointsUsed (setScore scores a v) =
      calculateTotalPointsUsed scores - calculatePointBuyCost (scores a) +
        calculatePointBuyCost v := by
  cases a <;> simp [calculateTotalPointsUsed, Ability.all, setScore] <;> ring

/-- One `adjustPointBuyScore` call preserves the point-buy invariant. -/
theorem adjustPointBuy_preserves (scores : Ability → ℤ) (a : Ability) (change : ℤ)
    (h : (∀ b, 8 ≤ scores b ∧ scores b ≤ 15) ∧
      calculateTotalPointsUsed scores ≤ 27) :
    (∀ b, 8 ≤ adjustPointBuyScore scores a change b ∧
        adjustPointBuyScore scores a change b ≤ 15) ∧
      calculateTotalPointsUsed (adjustPointBuyScore scores a change) ≤ 27 := by
  obtain ⟨hb, ht⟩ := h
  simp only [adjustPointBuyScore]
  split_ifs with h1 h2
  · exact ⟨hb, ht⟩
  · exact ⟨hb, ht⟩
  · constructor
    · intro b
      simp only [setScore]
      split_ifs with hba
      · omega
      · exact hb b
    · rw [totalPointsUsed_setScore]
      simp only [getPointsRemaining] at h2
      omega

/-- Any sequence of `adjustPointBuyScore` calls preserves the invariant. -/
theorem pointBuy_foldl_invariant (ops : List (Ability × ℤ)) (scores : Ability → ℤ)
    (h : (∀ b, 8 ≤ scores b ∧ scores b ≤ 15) ∧
      calculateTotalPointsUsed scores ≤ 27) :
    (∀ b, 8 ≤ (ops.foldl (fun s p => adjustPointBuyScore s p.1 p.2) scores) b ∧
        (ops.foldl (fun s p => adjustPointBuyScore s p.1 p.2) scores) b ≤ 15) ∧
      calculateTotalPointsUsed
        (ops.foldl (fun s p => adjustPointBuyScore s p.1 p.2) scores) ≤ 27 := by
  induction ops generalizing scores with
  | nil => simpa using h
  | cons op rest ih =>
      simp only [List.foldl_cons]
      exact ih _ (adjustPointBuy_preserves scores op.1 op.2 h)

/-- Claim C9: starting from the point-buy defaults (all six base scores 8,
27 points), after every sequence of `adjustPointBuyScore` calls each base
ability score remains within [8, 15] and the total point-buy cost of the six
scores never exceeds 27. -/
theorem runPointBuy_invariant (ops : List (Ability × ℤ)) :
    (∀ a, 8 ≤ runPointBuy ops a ∧ runPointBuy ops a ≤ 15) ∧
      calculateTotalPointsUsed (runPointBuy ops) ≤ 27 := by
  refine pointBuy_foldl_invariant ops pointBuyDefaults ⟨?_, by decide⟩
  intro b
  simp [pointBuyDefaults]

/-- Claim C8: for every ability score in 8..15, the point-buy cost equals
score - 8 for scores 8 through 13, equals 7 for score 14, and equals 9 for
score 15. -/
theorem pointBuyCost_curve (s : ℤ) (h8 : 8 ≤ s) (h15 : s ≤ 15) :
    calculatePointBuyCost s =
      if s ≤ 13 then s - 8 else if s = 14 then 7 else 9 := by
  simp only [calculatePointBuyCost]
  split_ifs <;> omega

/-- Witness for C8 at the concrete score 15. -/
theorem pointBuyCost_curve_witness :
    (8 : ℤ) ≤ 15 ∧ (15 : ℤ) ≤ 15 ∧
      calculatePointBuyCost 15 =
        if (15 : ℤ) ≤ 13 then 15 - 8 else if (15 : ℤ) = 14 then 7 else 9 :=
  ⟨by decide, by decide, pointBuyCost_curve 15 (by decide) (by decide)⟩

/-- Claim C5 counterexample: with a d8 hit die and constitution 16
(modifier +3), a valid roll of 8 yields an hp_gain of 11, above the hit die
size — the committed hp_gain is not bounded by the hit die. -/
theorem rollHpGain_exceeds_hit_die :
    conModifier 16 = 3 ∧ ((1 : ℤ) ≤ 8 ∧ (8 : ℤ) ≤ 8) ∧
      rollHpGain 8 (conModifier 16) = 11 ∧ ¬ rollHpGain 8 (conModifier 16) ≤ 8 := by
  refine ⟨by decide, ⟨by decide, by decide⟩, by decide, by decide⟩

/-- Claim C5 (amended): the hp_gain produced by the Roll-for-HP path is at
least 1 and at most max(1, hit die + CON modifier) — not at most the hit die
size; the manual-entry path submits the parsed value unclamped. -/
theorem rollHpGain_bounds (hitDie rollValue cm : ℤ)
    (h1 : 1 ≤ rollValue) (h2 : rollValue ≤ hitDie) :
    1 ≤ rollHpGain rollValue cm ∧
      rollHpGain rollValue cm ≤ max 1 (hitDie + cm) := by
  simp only [rollHpGain, le_max_iff, max_le_iff]
  omega

/-- Witness for the amended C5: d8 hit die, roll of 3, CON modifier +2. -/
theorem rollHpGain_bounds_witness :
    (1 : ℤ) ≤ 3 ∧ (3 : ℤ) ≤ 8 ∧
      (1 ≤ rollHpGain 3 2 ∧ rollHpGain 3 2 ≤ max 1 (8 + 2)) :=
  ⟨by decide, by decide, rollHpGain_bounds 8 3 2 (by decide) (by decide)⟩

/-- Updating one ability's improvement changes the ASI total by the
difference at that ability. -/
theorem totalAsiPoints_update (imp : Ability → ℕ) (a : Ability) (v : ℕ) :
    totalAsiPoints (fun b => if b = a then v else imp b) + imp a =
      totalAsiPoints imp + v := by
  cases a <;> simp [totalAsiPoints, Ability.all] <;> ring

/-- One ASI-step UI event preserves the ASI invariant: at most 2 points
spent, and every increased ability ends at 20 or below. -/
theorem asiStep_preserves (base : Ability → ℤ) (sel : ASISelections) (e : ASIEvent)
    (h : totalAsiPoints sel.improvements ≤ 2 ∧
      ∀ a, 1 ≤ sel.improvements a → base a + (sel.improvements a : ℤ) ≤ 20) :
    totalAsiPoints (asiStep base sel e).improvements ≤ 2 ∧
      ∀ a, 1 ≤ (asiStep base sel e).improvements a →
        base a + ((asiStep base sel e).improvements a : ℤ) ≤ 20 := by
  obtain ⟨h1, h2⟩ := h
  cases e with
  | incAbility a =>
      simp only [asiStep]
      split_ifs with hg
      · obtain ⟨hg1, hg2, _⟩ := hg
        constructor
        · have hu := totalAsiPoints_update sel.improvements a (sel.improvements a + 1)
          simp only
          omega
        · intro b hb
          simp only at hb ⊢
          by_cases hba : b = a
          · subst hba
            simp only [if_pos rfl, eq_self_iff_true, if_true] at hb ⊢
            push_cast
            omega
          · simp only [if_neg hba] at hb ⊢
            exact h2 b hb
      · exact ⟨h1, h2⟩
  | decAbility a =>
      simp only [asiStep]
      split_ifs with hg
      · obtain ⟨hg1, _⟩ := hg
        constructor
        · have hu := totalAsiPoints_update sel.improvements a (sel.improvements a - 1)
          simp only
          omega
        · intro b hb
          simp only at hb ⊢
          by_cases hba : b = a
          · subst hba
            simp only [if_pos rfl, eq_self_iff_true, if_true] at hb ⊢
            have hba2 : 2 ≤ sel.improvements b := by omega
            have := h2 b (by omega)
            omega
          · simp only [if_neg hba] at hb ⊢
            exact h2 b hb
      · exact ⟨h1, h2⟩
  | radioAbilities => exact ⟨h1, h2⟩
  | radioFeat =>
      constructor
      · simp [asiStep, totalAsiPoints, Ability.all]
      · intro a ha
        simp [asiStep] at ha
  | dropdownFeat s => exact ⟨h1, h2⟩

/-- Any sequence of ASI-step UI events preserves the ASI invariant. -/
theorem asi_foldl_invariant (base : Ability → ℤ) (events : List ASIEvent)
    (sel : ASISelections)
    (h : totalAsiPoints sel.improvements ≤ 2 ∧
      ∀ a, 1 ≤ sel.improvements a → base a + (sel.improvements a : ℤ) ≤ 20) :
    totalAsiPoints (events.foldl (asiStep base) sel).improvements ≤ 2 ∧
      ∀ a, 1 ≤ (events.foldl (asiStep base) sel).improvements a →
        base a + ((events.foldl (asiStep base) sel).improvements a : ℤ) ≤ 20 := by
  induction events generalizing sel with
  | nil => simpa using h
  | cons e rest ih =>
      simp only [List.foldl_cons]
      exact ih _ (asiStep_preserves base sel e h)

/-- Claim C4 counterexample: from the wizard's initial state, selecting the
abilities radio, spending both ASI points (+1 STR, +1 DEX at base scores 10),
and then picking "Alert" from the always-enabled feat dropdown leaves both
the two ability increases and a selected feat in the committed payload — the
claim's "never both at once" is false. -/
theorem asi_both_committed :
    totalAsiPoints (runAsi (fun _ => 10) c4BadEvents).improvements = 2 ∧
      (runAsi (fun _ => 10) c4BadEvents).selected_feat = "Alert" :=
  ⟨rfl, rfl⟩

/-- Claim C4 (amended): at a level granting an ability-score improvement, the
committed level-up always has a total ability increase of at most 2 with
every increased ability ending at 20 or below, and at most one feat string;
but selecting a feat from the dropdown does not clear previously chosen
ability increases, so ability increases and a feat can be committed together
— "never both at once" does not hold. -/
theorem asi_commit_invariant (base : Ability → ℤ) (events : List ASIEvent) :
    totalAsiPoints (runAsi base events).improvements ≤ 2 ∧
      ∀ a, 1 ≤ (runAsi base events).improvements a →
        base a + ((runAsi base events).improvements a : ℤ) ≤ 20 := by
  refine asi_foldl_invariant base events initialSelections ⟨by decide, ?_⟩
  intro a ha
  simp [initialSelections] at ha

/-- `modify_hp` never changes `max_hp`. -/
theorem modify_hp_max_hp (s : CharState) (amount : ℤ) :
    (modify_hp s amount).max_hp = s.max_hp := by
  simp only [modify_hp]
  split_ifs <;> rfl

/-- One `modify_hp` keeps `current_hp` within [0, max_hp]. -/
theorem modify_hp_hp_range (s : CharState) (amount : ℤ)
    (h : 0 ≤ s.current_hp ∧ s.current_hp ≤ s.max_hp) :
    0 ≤ (modify_hp s amount).current_hp ∧
      (modify_hp s amount).current_hp ≤ (modify_hp s amount).max_hp := by
  obtain ⟨h1, h2⟩ := h
  rw [modify_hp_max_hp]
  simp only [modify_hp]
  split_ifs with hd hneg hdeath
  · exact ⟨h1, h2⟩
  · exact ⟨h1, h2⟩
  · refine ⟨le_max_left 0 _, ?_⟩
    show max 0 (s.current_hp + amount) ≤ s.max_hp
    exact max_le (by omega) (by omega)
  · refine ⟨?_, ?_⟩
    · show (0 : ℤ) ≤ min s.max_hp (s.current_hp + amount)
      exact le_min (by omega) (by omega)
    · show min s.max_hp (s.current_hp + amount) ≤ s.max_hp
      exact min_le_left _ _

/-- One `modify_hp` preserves the §3 invariant `ValidChar`. -/
theorem modify_hp_valid (s : CharState) (amount : ℤ) (h : ValidChar s) :
    ValidChar (modify_hp s amount) := by
  obtain ⟨h1, h2, h3⟩ := h
  rw [ValidChar, modify_hp_max_hp]
  simp only [modify_hp]
  split_ifs with hd hneg hdeath
  · exact ⟨h1, h2, h3⟩
  · refine ⟨h1, h2, ?_⟩
    simp
  · rw [Bool.not_eq_true] at hd
    refine ⟨le_max_left 0 _, ?_, ?_⟩
    · show max 0 (s.current_hp + amount) ≤ s.max_hp
      exact max_le (by omega) (by omega)
    · show decide (max 0 (s.current_hp + amount) = 0) = true ↔
        (max 0 (s.current_hp + amount) = 0 ∧ s.dead = false)
      simp [hd]
  · rw [Bool.not_eq_true] at hd
    refine ⟨?_, ?_, ?_⟩
    · show (0 : ℤ) ≤ min s.max_hp (s.current_hp + amount)
      exact le_min (by omega) (by omega)
    · show min s.max_hp (s.current_hp + amount) ≤ s.max_hp
      exact min_le_left _ _
    · show decide (min s.max_hp (s.current_hp + amount) = 0) = true ↔
        (min s.max_hp (s.current_hp + amount) = 0 ∧ s.dead = false)
      simp [hd]

/-- HP range is preserved by any sequence of `modify_hp` operations. -/
theorem foldl_modify_hp_range (ops : List ℤ) (s : CharState)
    (h : 0 ≤ s.current_hp ∧ s.current_hp ≤ s.max_hp) :
    0 ≤ (ops.foldl modify_hp s).current_hp ∧
      (ops.foldl modify_hp s).current_hp ≤ (ops.foldl modify_hp s).max_hp := by
  induction ops generalizing s with
  | nil => simpa using h
  | cons a rest ih =>
      simp only [List.foldl_cons]
      exact ih _ (modify_hp_hp_range s a h)

/-- `ValidChar` is preserved by any sequence of `modify_hp` operations. -/
theorem foldl_modify_hp_valid (ops : List ℤ) (s : CharState) (h : ValidChar s) :
    ValidChar (ops.foldl modify_hp s) := by
  induction ops generalizing s with
  | nil => simpa using h
  | cons a rest ih =>
      simp only [List.foldl_cons]
      exact ih _ (modify_hp_valid s a h)

/-- Claim C1: for every character and every sequence of `modify_hp`
operations (damage or healing), the resulting current_hp stays within
[0, max_hp]: damage is clamped so current_hp cannot go below 0 and healing
is clamped to max_hp. -/
theorem modify_hp_sequence_bounds (s : CharState) (ops : List ℤ)
    (h : 0 ≤ s.current_hp ∧ s.current_hp ≤ s.max_hp) :
    0 ≤ (ops.foldl modify_hp s).current_hp ∧
      (ops.foldl modify_hp s).current_hp ≤ (ops.foldl modify_hp s).max_hp :=
  foldl_modify_hp_range ops s h

/-- Witness for C1: a 20/20 HP character taking 25 damage, then healing 5. -/
theorem modify_hp_sequence_bounds_witness :
    (0 ≤ exampleChar.current_hp ∧ exampleChar.current_hp ≤ exampleChar.max_hp) ∧
      (0 ≤ (([-25, 5] : List ℤ).foldl modify_hp exampleChar).current_hp ∧
        (([-25, 5] : List ℤ).foldl modify_hp exampleChar).current_hp ≤
          (([-25, 5] : List ℤ).foldl modify_hp exampleChar).max_hp) :=
  ⟨by decide, modify_hp_sequence_bounds exampleChar [-25, 5] (by decide)⟩

/-- Claim C7: after every operation, the unconsciousness condition is present
if and only if current_hp = 0 and the entity is not dead. -/
theorem unconscious_iff_sequence (s : CharState) (ops : List ℤ)
    (h : ValidChar s) :
    ((ops.foldl modify_hp s).unconscious = true ↔
      ((ops.foldl modify_hp s).current_hp = 0 ∧
        (ops.foldl modify_hp s).dead = false)) :=
  (foldl_modify_hp_valid ops s h).2.2

/-- Witness for C7: the character knocked to 0 HP is unconscious, not dead. -/
theorem unconscious_iff_sequence_witness :
    ValidChar exampleChar ∧
      ((([-25] : List ℤ).foldl modify_hp exampleChar).unconscious = true ↔
        ((([-25] : List ℤ).foldl modify_hp exampleChar).current_hp = 0 ∧
          (([-25] : List ℤ).foldl modify_hp exampleChar).dead = false)) :=
  ⟨by decide, unconscious_iff_sequence exampleChar [-25] (by decide)⟩

/-- `getD` after `set` at an in-bounds index returns the new value. -/
theorem getD_set_self (l : List ℤ) (i : ℕ) (v : ℤ) (h : i < l.length) :
    (l.set i v).getD i 0 = v := by
  induction l generalizing i with
  | nil => simp at h
  | cons x xs ih =>
      cases i with
      | zero => rfl
      | succ n => exact ih n (by simp only [List.length_cons] at h; omega)

/-- `getD` past the end of the list returns the default. -/
theorem getD_default_of_le (l : List ℤ) (i : ℕ) (h : l.length ≤ i) :
    l.getD i 0 = 0 := by
  induction l generalizing i with
  | nil => cases i <;> rfl
  | cons x xs ih =>
      cases i with
      | zero => simp at h
      | succ n => exact ih n (by simp only [List.length_cons] at h; omega)

/-- Claim C2: for every successful cast_spell with a non-cantrip spell at
chosen slot level L, remaining_slots[L] decreases by exactly 1 and never
becomes negative; for every cantrip (spell_level = 0) no spell slot is
consumed. -/
theorem cast_spell_slot_consumption (st st' : SpellcastState)
    (spell_level slot_level : ℕ) (castable : Bool)
    (h : cast_spell st spell_level slot_level castable = .ok st') :
    (spell_level ≠ 0 →
        st'.spell_slots.getD (slot_level - 1) 0 =
            st.spell_slots.getD (slot_level - 1) 0 - 1 ∧
          1 ≤ st.spell_slots.getD (slot_level - 1) 0 ∧
          0 ≤ st'.spell_slots.getD (slot_level - 1) 0) ∧
      (spell_level = 0 → st'.spell_slots = st.spell_slots) := by
  simp only [cast_spell] at h
  split_ifs at h with h0 hs hc
  · simp only [Except.ok.injEq] at h
    subst h
    exact ⟨fun hne => absurd h0 hne, fun _ => rfl⟩
  · simp only [Except.ok.injEq] at h
    subst h
    have hpos : 0 < st.spell_slots.getD (slot_level - 1) 0 := by omega
    have hlen : slot_level - 1 < st.spell_slots.length := by
      by_contra hcon
      rw [getD_default_of_le st.spell_slots (slot_level - 1) (by omega)] at hpos
      omega
    refine ⟨fun _ => ?_, fun h0' => absurd h0' h0⟩
    refine ⟨getD_set_self _ _ _ hlen, by omega, ?_⟩
    rw [getD_set_self _ _ _ hlen]
    omega

/-- Witness for C2: casting a prepared level-1 spell at slot level 1 with two
level-1 slots remaining. -/
theorem cast_spell_slot_consumption_witness :
    cast_spell exampleSpellState 1 1 true = .ok exampleSpellStateAfter ∧
      (((1 : ℕ) ≠ 0 →
          exampleSpellStateAfter.spell_slots.getD 0 0 =
              exampleSpellState.spell_slots.getD 0 0 - 1 ∧
            1 ≤ exampleSpellState.spell_slots.getD 0 0 ∧
            0 ≤ exampleSpellStateAfter.spell_slots.getD 0 0) ∧
        ((1 : ℕ) = 0 →
          exampleSpellStateAfter.spell_slots = exampleSpellState.spell_slots)) :=
  ⟨rfl, cast_spell_slot_consumption exampleSpellState exampleSpellStateAfter
    1 1 true rfl⟩

/-- Looking up a key that sits at the head of the applied list finds it. -/
theorem lookupKey_cons_self (state' : ℤ) (tail : List ((ℕ × ℕ) × ℤ))
    (e k : ℕ) (v : ℤ) :
    Store.lookupKey ⟨state', ((e, k), v) :: tail⟩ e k = some v := by
  simp only [Store.lookupKey]
  rw [List.find?_cons_of_pos _ (by simp)]
  rfl

/-- Claim C3: applying the same (entity_id, idempotency_key) request twice
produces identical results and only one effective state change: the first
fresh application performs the mutation once and the repeat returns the
recorded result, leaving the store untouched. -/
theorem apply_at_most_once (st st₁ : Store) (r₁ : ℤ) (e k : ℕ)
    (mutation : ℤ → ℤ) (valid : ℤ → Bool)
    (hfresh : st.lookupKey e k = none)
    (h : st.apply e k mutation valid = .ok (st₁, r₁)) :
    st₁.apply e k mutation valid = .ok (st₁, r₁) ∧
      st₁.state = mutation st.state := by
  simp only [Store.apply, hfresh] at h
  split_ifs at h with hv
  simp only [Except.ok.injEq, Prod.mk.injEq] at h
  obtain ⟨hst, hr⟩ := h
  subst hst
  subst hr
  constructor
  · simp only [Store.apply, lookupKey_cons_self]
  · rfl

/-- Witness for C3: a fresh store with state 20, key (1, 42), and a
damage-like mutation subtracting 10. -/
theorem apply_at_most_once_witness :
    exampleStore.lookupKey 1 42 = none ∧
      Store.apply exampleStore 1 42 (fun s => s - 10) (fun _ => true) =
        .ok (exampleStoreAfter, 10) ∧
      (Store.apply exampleStoreAfter 1 42 (fun s => s - 10) (fun _ => true) =
          .ok (exampleStoreAfter, 10) ∧
        exampleStoreAfter.state = (fun s : ℤ => s - 10) exampleStore.state) :=
  ⟨rfl, rfl,
    apply_at_most_once exampleStore exampleStoreAfter 10 1 42
      (fun s => s - 10) (fun _ => true) rfl rfl⟩

/-- Claim C6: for every dice roll with sides = 20 and mode advantage or
disadvantage, two independent d20s are drawn, the max (advantage) or min
(disadvantage) is kept, the dropped die is reported separately, and
total = kept value + modifier; for any other number of sides the mode is
ignored and count independent dice are summed (and `rollBasicDice` sends
mode normal for non-d20 rolls). -/
theorem dice_roll_modes (count sides modifier : ℤ) (mode : RollMode)
    (rng : ℕ → ℤ) (hsides : 2 ≤ sides) (hcount : 1 ≤ count) :
    (sides = 20 → mode = .advantage →
        roll count sides modifier mode rng =
          .ok { rolls := [max (rng 0) (rng 1)],
                dropped := [min (rng 0) (rng 1)], modifier := modifier,
                total := max (rng 0) (rng 1) + modifier }) ∧
      (sides = 20 → mode = .disadvantage →
        roll count sides modifier mode rng =
          .ok { rolls := [min (rng 0) (rng 1)],
                dropped := [max (rng 0) (rng 1)], modifier := modifier,
                total := min (rng 0) (rng 1) + modifier }) ∧
      (sides ≠ 20 →
        roll count sides modifier mode rng =
          .ok { rolls := (List.range count.toNat).map rng, dropped := [],
                modifier := modifier,
                total := ((List.range count.toNat).map rng).sum + modifier } ∧
        rollBasicDiceAdvantage sides mode = .normal) := by
  refine ⟨?_, ?_, ?_⟩
  · intro hs hm
    subst hs; subst hm
    simp only [roll]
    rw [if_neg (by omega)]
    simp
  · intro hs hm
    subst hs; subst hm
    simp only [roll]
    rw [if_neg (by omega)]
    simp
  · intro hs
    constructor
    · simp only [roll]
      rw [if_neg (by omega), if_neg (by simp [hs])]
    · simp [rollBasicDiceAdvantage, hs]

/-- Witness for C6: one d20 advantage roll with modifier 3, dice 15 and 7. -/
theorem dice_roll_modes_witness :
    (2 : ℤ) ≤ 20 ∧ (1 : ℤ) ≤ 1 ∧
      roll 1 20 3 .advantage exampleRng =
        .ok { rolls := [max (exampleRng 0) (exampleRng 1)],
              dropped := [min (exampleRng 0) (exampleRng 1)], modifier := 3,
              total := max (exampleRng 0) (exampleRng 1) + 3 } :=
  ⟨by decide, by decide,
    (dice_roll_modes 1 20 3 .advantage exampleRng (by decide) (by decide)).1
      rfl rfl⟩

/-- Per-group fact, checked over all bounded die values: the top-three sum of
a descending-sorted 4-element group equals the claims wording (sum of the
three highest, i.e. sum of all four minus the smallest) and lies in [3, 18]. -/
theorem sortDesc_group_spec :
    ∀ a, a < 6 → ∀ b, b < 6 → ∀ c, c < 6 → ∀ d, d < 6 →
      ((sortDesc [a + 1, b + 1, c + 1, d + 1]).getD 0 0 +
          (sortDesc [a + 1, b + 1, c + 1, d + 1]).getD 1 0 +
          (sortDesc [a + 1, b + 1, c + 1, d + 1]).getD 2 0 =
            specThreeHighestSum (a + 1) (b + 1) (c + 1) (d + 1) ∧
        3 ≤ (sortDesc [a + 1, b + 1, c + 1, d + 1]).getD 0 0 +
          (sortDesc [a + 1, b + 1, c + 1, d + 1]).getD 1 0 +
          (sortDesc [a + 1, b + 1, c + 1, d + 1]).getD 2 0 ∧
        (sortDesc [a + 1, b + 1, c + 1, d + 1]).getD 0 0 +
          (sortDesc [a + 1, b + 1, c + 1, d + 1]).getD 1 0 +
          (sortDesc [a + 1, b + 1, c + 1, d + 1]).getD 2 0 ≤ 18) := by
  decide

/-- One rolled group of four dice, evaluated through the group fact. -/
theorem group_eval (g : ℕ → ℕ) (hg : ∀ j, j < 4 → 1 ≤ g j ∧ g j ≤ 6) :
    (sortDesc [g 0, g 1, g 2, g 3]).getD 0 0 +
        (sortDesc [g 0, g 1, g 2, g 3]).getD 1 0 +
        (sortDesc [g 0, g 1, g 2, g 3]).getD 2 0 =
          specThreeHighestSum (g 0) (g 1) (g 2) (g 3) ∧
      3 ≤ (sortDesc [g 0, g 1, g 2, g 3]).getD 0 0 +
        (sortDesc [g 0, g 1, g 2, g 3]).getD 1 0 +
        (sortDesc [g 0, g 1, g 2, g 3]).getD 2 0 ∧
      (sortDesc [g 0, g 1, g 2, g 3]).getD 0 0 +
        (sortDesc [g 0, g 1, g 2, g 3]).getD 1 0 +
        (sortDesc [g 0, g 1, g 2, g 3]).getD 2 0 ≤ 18 := by
  have h0 := hg 0 (by omega)
  have h1 := hg 1 (by omega)
  have h2 := hg 2 (by omega)
  have h3 := hg 3 (by omega)
  have key := sortDesc_group_spec (g 0 - 1) (by omega) (g 1 - 1) (by omega)
    (g 2 - 1) (by omega) (g 3 - 1) (by omega)
  have e0 : g 0 - 1 + 1 = g 0 := by omega
  have e1 : g 1 - 1 + 1 = g 1 := by omega
  have e2 : g 2 - 1 + 1 = g 2 := by omega
  have e3 : g 3 - 1 + 1 = g 3 := by omega
  rw [e0, e1, e2, e3] at key
  exact key

/-- Claim C10: rollAbilityScores always produces exactly six ability totals,
each equal to the sum of the three highest of its four d6 values (each die in
1..6), so every generated total lies in [3, 18]. -/
theorem rollAbilityScores_totals (dice : ℕ → ℕ → ℕ)
    (h : ∀ i, i < 6 → ∀ j, j < 4 → 1 ≤ dice i j ∧ dice i j ≤ 6) :
    (abilityTotals dice).length = 6 ∧
      ∀ i, i < 6 →
        (abilityTotals dice).getD i 0 =
            specThreeHighestSum (dice i 0) (dice i 1) (dice i 2) (dice i 3) ∧
          3 ≤ (abilityTotals dice).getD i 0 ∧
          (abilityTotals dice).getD i 0 ≤ 18 := by
  refine ⟨rfl, ?_⟩
  intro i hi
  interval_cases i
  · exact group_eval (dice 0) (h 0 (by omega))
  · exact group_eval (dice 1) (h 1 (by omega))
  · exact group_eval (dice 2) (h 2 (by omega))
  · exact group_eval (dice 3) (h 3 (by omega))
  · exact group_eval (dice 4) (h 4 (by omega))
  · exact group_eval (dice 5) (h 5 (by omega))

/-- Witness for C10: all twenty-four dice showing 4. -/
theorem rollAbilityScores_totals_witness :
    (∀ i, i < 6 → ∀ j, j < 4 →
        1 ≤ (fun _ _ => 4 : ℕ → ℕ → ℕ) i j ∧
          (fun _ _ => 4 : ℕ → ℕ → ℕ) i j ≤ 6) ∧
      ((abilityTotals (fun _ _ => 4)).length = 6 ∧
        ∀ i, i < 6 →
          (abilityTotals (fun _ _ => 4)).getD i 0 =
              specThreeHighestSum 4 4 4 4 ∧
            3 ≤ (abilityTotals (fun _ _ => 4)).getD i 0 ∧
            (abilityTotals (fun _ _ => 4)).getD i 0 ≤ 18) :=
  ⟨by decide, rollAbilityScores_totals (fun _ _ => 4) (by decide)⟩

end DndEngine
